import Mathlib

/-!
A shallow embedding of the jvlm lowering engine (an LLVM-IR to JVM-classfile
back end written in Rust) together with theorems checking its specification.

The embedding follows the source files:
  src/classfile/constant_pool.rs  (interned constant pool),
  src/classfile/descriptor.rs     (descriptor grammar),
  src/classfile/mod.rs            (class-file writer, method writer, code
                                   buffer, stack-map tracking, serialization),
  src/lib.rs                      (archive planner and SSA translator state),
  src/memory.rs                   (MemorySegment memory strategy).

Machine integers are modelled as Nat / Int with explicit reductions modulo
2^8 / 2^16 / 2^32 where the Rust code truncates (an `as u8` / `as u16` /
`as u32` cast, or two's-complement wrap-around of release-mode arithmetic).
Rust HashMaps are modelled as association lists for their contents; where the
source iterates a HashMap, the (unspecified) iteration order is an explicit
parameter.  Code paths that panic in the source (todo!, unwrap on missing
data) are modelled with Option where a claim depends on them.
-/

/-- Big-endian bytes of a 16-bit value (the argument is reduced mod 2^16). -/
def u16bytes (v : Nat) : List Nat := [v % 65536 / 256, v % 256]

/-- Big-endian bytes of a 32-bit value (the argument is reduced mod 2^32). -/
def u32bytes (v : Nat) : List Nat :=
  [v % 4294967296 / 16777216, v % 16777216 / 65536, v % 65536 / 256, v % 256]

/-- Wrap an integer into the i16 range, two's-complement style.  This models
both the `as i16` truncating cast and release-mode wrap-around of i16
arithmetic. -/
def i16wrap (x : Int) : Int := (x + 32768) % 65536 - 32768

/-- The Rust cast `size as i16` applied to a u64: keep the low 16 bits and
interpret them as signed. -/
def u64AsI16 (s : Nat) : Int := i16wrap s

/-- The unsigned byte holding a signed 8-bit value (write_i8). -/
def i8byte (c : Int) : Nat := (c % 256).toNat

/-- Big-endian bytes of a signed 16-bit value (write_i16). -/
def i16bytes (c : Int) : List Nat := u16bytes (c % 65536).toNat

/-- UTF-8 encoding of one character (the `str::as_bytes` view used when
serializing pool strings). -/
def charUtf8 (c : Char) : List Nat :=
  let n := c.toNat
  if n < 0x80 then [n]
  else if n < 0x800 then [0xC0 + n / 64, 0x80 + n % 64]
  else if n < 0x10000 then [0xE0 + n / 4096, 0x80 + n / 64 % 64, 0x80 + n % 64]
  else [0xF0 + n / 262144, 0x80 + n / 4096 % 64, 0x80 + n / 64 % 64, 0x80 + n % 64]

/-- The bytes of a Rust string (`s.as_bytes()`). -/
def strBytes (s : String) : List Nat := s.data.flatMap charUtf8

/-- The code buffer (the `bytebuffer::ByteBuffer` used for method code):
a byte vector plus a write cursor.  Writing inside the buffer overwrites,
writing at the end appends. -/
structure ByteBuffer where
  data : List Nat
  wpos : Nat
deriving DecidableEq

def ByteBuffer.new : ByteBuffer := ⟨[], 0⟩

def ByteBuffer.get_wpos (b : ByteBuffer) : Nat := b.wpos

def ByteBuffer.set_wpos (b : ByteBuffer) (p : Nat) : ByteBuffer := ⟨b.data, p⟩

/-- `ByteBuffer::write_u8`: overwrite in place when the cursor is inside the
buffer, extend (zero-padding any gap) otherwise. -/
def ByteBuffer.write_u8 (b : ByteBuffer) (v : Nat) : ByteBuffer :=
  if b.wpos < b.data.length then
    ⟨b.data.set b.wpos v, b.wpos + 1⟩
  else
    ⟨b.data ++ List.replicate (b.wpos - b.data.length) 0 ++ [v], b.wpos + 1⟩

/-- `ByteBuffer::write_u16` (big endian). -/
def ByteBuffer.write_u16 (b : ByteBuffer) (v : Nat) : ByteBuffer :=
  (b.write_u8 (v % 65536 / 256)).write_u8 (v % 256)

/-- `ByteBuffer::write_i8`. -/
def ByteBuffer.write_i8 (b : ByteBuffer) (c : Int) : ByteBuffer :=
  b.write_u8 (i8byte c)

/-- `ByteBuffer::write_i16` (big endian). -/
def ByteBuffer.write_i16 (b : ByteBuffer) (c : Int) : ByteBuffer :=
  b.write_u16 (c % 65536).toNat

/-- Verification types (src/classfile/mod.rs, enum VerificationType). -/
inductive VerificationType where
  | Top
  | Integer
  | Float
  | Long
  | Double
  | Null
  | UninitializedThis
  | Object (name : String)
  | UninitializedVariable (loc : Nat)
deriving DecidableEq

/-- An ordered list of verification types with its cached slot count
(struct VerificationTypeList, field .1 is the slot count). -/
structure VerificationTypeList where
  items : List VerificationType
  slots : Nat
deriving DecidableEq

/-- The slot width a verification type contributes (Long and Double take two
slots, everything else one) exactly as tested in push/pop/From. -/
def vtWidth (t : VerificationType) : Nat :=
  if t = VerificationType.Long ∨ t = VerificationType.Double then 2 else 1

/-- `From<Vec<VerificationType>> for VerificationTypeList`. -/
def VerificationTypeList.ofList (l : List VerificationType) : VerificationTypeList :=
  ⟨l, (l.map vtWidth).sum⟩

/-- `VerificationTypeList::push`. -/
def VerificationTypeList.push (l : VerificationTypeList) (t : VerificationType) :
    VerificationTypeList :=
  ⟨l.items ++ [t], l.slots + vtWidth t⟩

/-- `VerificationTypeList::pop` (the Rust version pops from the back of the
vector and subtracts the width of the popped element). -/
def VerificationTypeList.popBack (l : VerificationTypeList) :
    Option VerificationType × VerificationTypeList :=
  match l.items.getLast? with
  | none => (none, l)
  | some t => (some t, ⟨l.items.dropLast, l.slots - vtWidth t⟩)

/-- `VerificationTypeList::len` returns the cached slot count. -/
def VerificationTypeList.len (l : VerificationTypeList) : Nat := l.slots

/-- `VerificationTypeList::is_empty`. -/
def VerificationTypeList.is_empty (l : VerificationTypeList) : Bool := l.len = 0

/-- struct StackMapFrame. -/
structure StackMapFrame where
  stack : VerificationTypeList
  locals : VerificationTypeList
deriving DecidableEq

/-- Constant pool entries (src/classfile/constant_pool.rs, enum
ConstantPoolEntry; the `Int` variant is named `IntEntry` here). -/
inductive ConstantPoolEntry where
  | Utf8 (s : String)
  | Class (r : Nat)
  | IntEntry (v : Int)
  | FieldRef (cls nat : Nat)
  | MethodRef (cls nat : Nat)
  | InterfaceMethodRef (cls nat : Nat)
  | NameAndType (name descriptor : Nat)
deriving DecidableEq

/-- Index of the first occurrence of an entry in the pool's entry list
(the lookup half of `IndexSet::insert_full`). -/
def cpIdxOf (l : List ConstantPoolEntry) (e : ConstantPoolEntry) : Option Nat :=
  match l with
  | [] => none
  | a :: as_ => if a = e then some 0 else (cpIdxOf as_ e).map (· + 1)

/-- `IndexSet::insert_full`: return the index of an existing equal entry, or
append the entry and return its fresh index. -/
def insert_full (l : List ConstantPoolEntry) (e : ConstantPoolEntry) :
    Nat × List ConstantPoolEntry :=
  match cpIdxOf l e with
  | some i => (i, l)
  | none => (l.length, l ++ [e])

/-- The 1-based 16-bit pool reference derived from a 0-based index
(`idx as u16 + 1` with u16 wrap-around). -/
def cpref (i : Nat) : Nat := (i % 65536 + 1) % 65536

/-- struct ConstantPool: an insertion-ordered deduplicated entry list. -/
structure ConstantPool where
  entries : List ConstantPoolEntry
deriving DecidableEq

def ConstantPool.empty : ConstantPool := ⟨[]⟩

/-- `ConstantPool::utf8`. -/
def ConstantPool.utf8 (p : ConstantPool) (s : String) : Nat × ConstantPool :=
  let r := insert_full p.entries (ConstantPoolEntry.Utf8 s)
  (cpref r.1, ⟨r.2⟩)

/-- `ConstantPool::class` (interns the Utf8 name first; `class` is a Lean
keyword, hence the name `cls`). -/
def ConstantPool.cls (p : ConstantPool) (s : String) : Nat × ConstantPool :=
  let u := p.utf8 s
  let r := insert_full u.2.entries (ConstantPoolEntry.Class u.1)
  (cpref r.1, ⟨r.2⟩)

/-- `ConstantPool::int`. -/
def ConstantPool.int (p : ConstantPool) (v : Int) : Nat × ConstantPool :=
  let r := insert_full p.entries (ConstantPoolEntry.IntEntry v)
  (cpref r.1, ⟨r.2⟩)

/-- `ConstantPool::name_and_type`. -/
def ConstantPool.name_and_type (p : ConstantPool) (name descriptor : String) :
    Nat × ConstantPool :=
  let n := p.utf8 name
  let d := n.2.utf8 descriptor
  let r := insert_full d.2.entries (ConstantPoolEntry.NameAndType n.1 d.1)
  (cpref r.1, ⟨r.2⟩)

/-- `ConstantPool::fieldref` (note: the class operand is interned as a plain
Utf8 entry, exactly as in the source). -/
def ConstantPool.fieldref (p : ConstantPool) (cls name descriptor : String) :
    Nat × ConstantPool :=
  let c := p.utf8 cls
  let nt := c.2.name_and_type name descriptor
  let r := insert_full nt.2.entries (ConstantPoolEntry.FieldRef c.1 nt.1)
  (cpref r.1, ⟨r.2⟩)

/-- `ConstantPool::methodref`. -/
def ConstantPool.methodref (p : ConstantPool) (cls name descriptor : String) :
    Nat × ConstantPool :=
  let c := p.utf8 cls
  let nt := c.2.name_and_type name descriptor
  let r := insert_full nt.2.entries (ConstantPoolEntry.MethodRef c.1 nt.1)
  (cpref r.1, ⟨r.2⟩)

/-- `ConstantPool::interfacemethodref`. -/
def ConstantPool.interfacemethodref (p : ConstantPool) (cls name descriptor : String) :
    Nat × ConstantPool :=
  let c := p.utf8 cls
  let nt := c.2.name_and_type name descriptor
  let r := insert_full nt.2.entries (ConstantPoolEntry.InterfaceMethodRef c.1 nt.1)
  (cpref r.1, ⟨r.2⟩)

/-- Serialization of one pool entry (tag byte plus payload). -/
def ConstantPoolEntry.serialize : ConstantPoolEntry → List Nat
  | ConstantPoolEntry.Utf8 s => 1 :: (u16bytes (strBytes s).length ++ strBytes s)
  | ConstantPoolEntry.Class v => 7 :: u16bytes v
  | ConstantPoolEntry.IntEntry i => 3 :: (u32bytes (i % 4294967296).toNat)
  | ConstantPoolEntry.FieldRef c nt => 9 :: (u16bytes c ++ u16bytes nt)
  | ConstantPoolEntry.MethodRef c nt => 10 :: (u16bytes c ++ u16bytes nt)
  | ConstantPoolEntry.InterfaceMethodRef c nt => 11 :: (u16bytes c ++ u16bytes nt)
  | ConstantPoolEntry.NameAndType n d => 12 :: (u16bytes n ++ u16bytes d)

/-- `ConstantPool::serialize`: the count (entries + 1 as u16) followed by the
entries in insertion order. -/
def ConstantPool.serialize (p : ConstantPool) : List Nat :=
  u16bytes (p.entries.length % 65536 + 1) ++ p.entries.flatMap ConstantPoolEntry.serialize

/-- enum JavaType (src/classfile/mod.rs). -/
inductive JavaType where
  | Int
  | Long
  | Float
  | Double
  | Reference
deriving DecidableEq

/-- enum ComparisonType with its `#[repr(u8)]` discriminants. -/
inductive ComparisonType where
  | Equal
  | NotEqual
  | LessThan
  | LessThanEqual
  | GreaterThan
  | GreaterThanEqual
deriving DecidableEq

/-- The u8 discriminant of a ComparisonType (`ty as u8`). -/
def ComparisonType.disc : ComparisonType → Nat
  | ComparisonType.Equal => 0
  | ComparisonType.NotEqual => 1
  | ComparisonType.LessThan => 2
  | ComparisonType.LessThanEqual => 5
  | ComparisonType.GreaterThan => 4
  | ComparisonType.GreaterThanEqual => 3

/-- enum DescriptorEntry (src/classfile/descriptor.rs). -/
inductive DescriptorEntry where
  | Byte
  | Char
  | Double
  | Float
  | Int
  | Long
  | Class (name : String)
  | Short
  | Boolean
  | Array (inner : DescriptorEntry)
deriving DecidableEq

/-- The Display implementation for DescriptorEntry. -/
def DescriptorEntry.toDescString : DescriptorEntry → String
  | DescriptorEntry.Byte => "B"
  | DescriptorEntry.Char => "C"
  | DescriptorEntry.Double => "D"
  | DescriptorEntry.Float => "F"
  | DescriptorEntry.Int => "I"
  | DescriptorEntry.Long => "J"
  | DescriptorEntry.Class c => "L" ++ c ++ ";"
  | DescriptorEntry.Short => "S"
  | DescriptorEntry.Boolean => "Z"
  | DescriptorEntry.Array i => "[" ++ i.toDescString

/-- struct MethodDescriptor (parameter list and optional return type). -/
structure MethodDescriptor where
  params : List DescriptorEntry
  ret : Option DescriptorEntry
deriving DecidableEq

/-- The Display implementation for MethodDescriptor. -/
def MethodDescriptor.toDescString (d : MethodDescriptor) : String :=
  "(" ++ String.join (d.params.map DescriptorEntry.toDescString) ++ ")" ++
    (match d.ret with
     | some x => x.toDescString
     | none => "V")

/-- `From<&DescriptorEntry> for JavaType`. -/
def DescriptorEntry.toJavaType : DescriptorEntry → JavaType
  | DescriptorEntry.Byte => JavaType.Int
  | DescriptorEntry.Char => JavaType.Int
  | DescriptorEntry.Double => JavaType.Double
  | DescriptorEntry.Float => JavaType.Float
  | DescriptorEntry.Int => JavaType.Int
  | DescriptorEntry.Long => JavaType.Long
  | DescriptorEntry.Class _ => JavaType.Reference
  | DescriptorEntry.Short => JavaType.Int
  | DescriptorEntry.Boolean => JavaType.Int
  | DescriptorEntry.Array _ => JavaType.Reference

/-- Insert-or-replace into the ordered stack-map table (the
`BTreeMap<CodeLocation, StackMapFrame>::insert` of MethodData). -/
def smtInsert (m : List (Nat × StackMapFrame)) (k : Nat) (v : StackMapFrame) :
    List (Nat × StackMapFrame) :=
  match m with
  | [] => [(k, v)]
  | (k0, v0) :: rest =>
    if k < k0 then (k, v) :: (k0, v0) :: rest
    else if k = k0 then (k, v) :: rest
    else (k0, v0) :: smtInsert rest k v

/-- Lookup in the ordered stack-map table. -/
def smtLookup (m : List (Nat × StackMapFrame)) (k : Nat) : Option StackMapFrame :=
  match m with
  | [] => none
  | (k0, v0) :: rest => if k = k0 then some v0 else smtLookup rest k

/-- The mutable state reachable from a `MethodWriter`: the per-method data it
writes through (`code`, `max_stack_size`, `stackmaptable` of the current
MethodData), the class writer's constant pool, and the writer's own
`current_frame`. -/
structure MethodWriterState where
  constant_pool : ConstantPool
  code : ByteBuffer
  max_stack_size : Nat
  current_frame : StackMapFrame
  stackmaptable : List (Nat × StackMapFrame)
deriving DecidableEq

/-- A fresh writer state over an empty pool, empty code and empty frame. -/
def MethodWriterState.fresh : MethodWriterState :=
  ⟨ConstantPool.empty, ByteBuffer.new, 0,
   ⟨VerificationTypeList.ofList [], VerificationTypeList.ofList []⟩, []⟩

/-- `MethodWriter::record_push`: push onto the virtual stack and raise the
max-stack high-water mark when the slot count exceeds it. -/
def record_push (s : MethodWriterState) (t : VerificationType) : MethodWriterState :=
  let stack := s.current_frame.stack.push t
  let ms := if stack.len > s.max_stack_size then stack.len else s.max_stack_size
  { s with current_frame := { s.current_frame with stack := stack }, max_stack_size := ms }

/-- `MethodWriter::record_push_ty`. -/
def record_push_ty (s : MethodWriterState) (t : JavaType) : MethodWriterState :=
  match t with
  | JavaType.Int => record_push s VerificationType.Integer
  | JavaType.Long => record_push s VerificationType.Long
  | JavaType.Float => record_push s VerificationType.Float
  | JavaType.Double => record_push s VerificationType.Double
  | JavaType.Reference => record_push s (VerificationType.Object "java/lang/Object")

/-- `MethodWriter::record_pop` (the source unwraps; popping an empty virtual
stack is a panic there, modelled as a no-op which no claim exercises). -/
def record_pop (s : MethodWriterState) : MethodWriterState :=
  let r := s.current_frame.stack.popBack
  { s with current_frame := { s.current_frame with stack := r.2 } }

/-- `MethodWriter::emit_opcode_referencing_local_var`: 2-byte form when the
index fits a u8, otherwise the WIDE-prefixed form with a 16-bit index. -/
def emit_opcode_referencing_local_var (s : MethodWriterState) (opcode index : Nat) :
    MethodWriterState :=
  if index ≤ 255 then
    { s with code := (s.code.write_u8 opcode).write_u8 index }
  else
    { s with code := (((s.code.write_u8 0xC4).write_u8 opcode).write_u16 index) }

/-- `MethodWriter::emit_load_store_inner`: dedicated 1-byte forms for slots
0-3, otherwise the long form. -/
def emit_load_store_inner (s : MethodWriterState) (shorthand long_form index : Nat) :
    MethodWriterState :=
  if index = 0 then { s with code := s.code.write_u8 shorthand }
  else if index = 1 then { s with code := s.code.write_u8 (shorthand + 1) }
  else if index = 2 then { s with code := s.code.write_u8 (shorthand + 2) }
  else if index = 3 then { s with code := s.code.write_u8 (shorthand + 3) }
  else emit_opcode_referencing_local_var s long_form index

/-- The shorthand (slot-0) load opcode per kind, from `emit_load`. -/
def loadShortOp : JavaType → Nat
  | JavaType.Int => 0x1a
  | JavaType.Long => 0x1e
  | JavaType.Float => 0x22
  | JavaType.Double => 0x26
  | JavaType.Reference => 0x2a

/-- The long-form load opcode per kind, from `emit_load`. -/
def loadLongOp : JavaType → Nat
  | JavaType.Int => 0x15
  | JavaType.Long => 0x16
  | JavaType.Float => 0x17
  | JavaType.Double => 0x18
  | JavaType.Reference => 0x19

/-- The shorthand (slot-0) store opcode per kind, from `emit_store`. -/
def storeShortOp : JavaType → Nat
  | JavaType.Int => 0x3b
  | JavaType.Long => 0x3f
  | JavaType.Float => 0x43
  | JavaType.Double => 0x47
  | JavaType.Reference => 0x4b

/-- The long-form store opcode per kind, from `emit_store` (the source writes
0x40 for Reference). -/
def storeLongOp : JavaType → Nat
  | JavaType.Int => 0x36
  | JavaType.Long => 0x37
  | JavaType.Float => 0x38
  | JavaType.Double => 0x39
  | JavaType.Reference => 0x40

/-- `MethodWriter::emit_load`. -/
def emit_load (s : MethodWriterState) (ty : JavaType) (index : Nat) : MethodWriterState :=
  record_push_ty (emit_load_store_inner s (loadShortOp ty) (loadLongOp ty) index) ty

/-- `MethodWriter::emit_store`. -/
def emit_store (s : MethodWriterState) (ty : JavaType) (index : Nat) : MethodWriterState :=
  record_pop (emit_load_store_inner s (storeShortOp ty) (storeLongOp ty) index)

/-- `MethodWriter::emit_constant_int`: intern the value in the pool and load
it with LDC (8-bit pool reference) or LDC_w (16-bit pool reference). -/
def emit_constant_int (s : MethodWriterState) (n : Int) : MethodWriterState :=
  let r := s.constant_pool.int n
  let s := { s with constant_pool := r.2 }
  let s :=
    if r.1 ≤ 255 then
      { s with code := (s.code.write_u8 0x12).write_u8 r.1 }
    else
      { s with code := (s.code.write_u8 0x13).write_u16 r.1 }
  record_push s VerificationType.Integer

/-- `MethodWriter::emit_i2l`. -/
def emit_i2l (s : MethodWriterState) : MethodWriterState :=
  let s := record_push (record_pop s) VerificationType.Long
  { s with code := s.code.write_u8 0x85 }

/-- `MethodWriter::emit_return`. -/
def emit_return (s : MethodWriterState) (ty : Option JavaType) : MethodWriterState :=
  let s := if ty.isSome then record_pop s else s
  match ty with
  | some JavaType.Int => { s with code := s.code.write_u8 0xac }
  | some JavaType.Long => { s with code := s.code.write_u8 0xad }
  | some JavaType.Float => { s with code := s.code.write_u8 0xae }
  | some JavaType.Double => { s with code := s.code.write_u8 0xaf }
  | some JavaType.Reference => { s with code := s.code.write_u8 0xb0 }
  | none => { s with code := s.code.write_u8 0xb1 }

/-- `MethodWriter::emit_iinc`: short form when the slot fits a u8 and the
constant fits an i8, otherwise the WIDE form with 16-bit operands. -/
def emit_iinc (s : MethodWriterState) (local_variable : Nat) (constant : Int) :
    MethodWriterState :=
  if local_variable ≤ 255 ∧ -128 ≤ constant ∧ constant ≤ 127 then
    { s with code := ((s.code.write_u8 0x84).write_u8 local_variable).write_i8 constant }
  else
    { s with code :=
        (((s.code.write_u8 0xC4).write_u8 0x84).write_u16 local_variable).write_i16 constant }

/-- The pair returned by the branch emitters (struct InstructionTarget):
the offset of the branch instruction and the offset of its 16-bit operand. -/
structure InstructionTarget where
  instruction_location : Nat
  jump_location : Nat
deriving DecidableEq

/-- `MethodWriter::current_location`. -/
def current_location (s : MethodWriterState) : Nat := s.code.get_wpos

/-- `MethodWriter::emit_goto`: the GOTO opcode followed by a 16-bit 0xFEFE
placeholder; returns the InstructionTarget for later patching. -/
def emit_goto (s : MethodWriterState) : InstructionTarget × MethodWriterState :=
  let i := current_location s
  let s := { s with code := s.code.write_u8 0xA7 }
  let j := s.code.get_wpos
  let s := { s with code := s.code.write_u16 0xFEFE }
  (⟨i, j⟩, s)

/-- `MethodWriter::emit_if_icmp`: pops two ints, emits the compare opcode
(0x9F + discriminant) and a 16-bit placeholder. -/
def emit_if_icmp (s : MethodWriterState) (ty : ComparisonType) :
    InstructionTarget × MethodWriterState :=
  let s := record_pop (record_pop s)
  let i := current_location s
  let s := { s with code := s.code.write_u8 (0x9F + ty.disc) }
  let j := s.code.get_wpos
  let s := { s with code := s.code.write_u16 0xFEFE }
  (⟨i, j⟩, s)

/-- `MethodWriter::emit_if`: pops one int, emits the compare-with-zero opcode
(0x99 + discriminant) and a 16-bit placeholder. -/
def emit_if (s : MethodWriterState) (ty : ComparisonType) :
    InstructionTarget × MethodWriterState :=
  let s := record_pop s
  let i := current_location s
  let s := { s with code := s.code.write_u8 (0x99 + ty.disc) }
  let j := s.code.get_wpos
  let s := { s with code := s.code.write_u16 0xFEFE }
  (⟨i, j⟩, s)

/-- The 16-bit branch displacement written by `set_target`: the usize
subtraction `target - instruction_location` truncated to u16 (release-mode
wrap-around), i.e. the two's-complement encoding of the signed displacement. -/
def dispu16 (target instr : Nat) : Nat := (((target : Int) - (instr : Int)) % 65536).toNat

/-- `MethodWriter::set_target`: rewind the cursor to the operand of the
branch, overwrite the two placeholder bytes with the displacement, restore
the cursor. -/
def set_target (s : MethodWriterState) (target_index : InstructionTarget) (target : Nat) :
    MethodWriterState :=
  let offset := dispu16 target target_index.instruction_location
  let wpos := s.code.get_wpos
  { s with code := (((s.code.set_wpos target_index.jump_location).write_u16 offset).set_wpos wpos) }

/-- `MethodWriter::get_current_stackframe`. -/
def get_current_stackframe (s : MethodWriterState) : StackMapFrame := s.current_frame

/-- `MethodWriter::set_current_stackframe`. -/
def set_current_stackframe (s : MethodWriterState) (f : StackMapFrame) : MethodWriterState :=
  { s with current_frame := f }

/-- `MethodWriter::record_stackframe`. -/
def record_stackframe (s : MethodWriterState) (loc : Nat) (f : StackMapFrame) :
    MethodWriterState :=
  { s with stackmaptable := smtInsert s.stackmaptable loc f }

/-- `MethodWriter::emit_invokestatic`: pop the arguments, push the return
type if any, then write the INVOKESTATIC opcode with the methodref. -/
def emit_invokestatic (s : MethodWriterState) (cls name : String) (desc : MethodDescriptor) :
    MethodWriterState :=
  let s := desc.params.foldl (fun s _ => record_pop s) s
  let s := match desc.ret with
    | some rt => record_push_ty s rt.toJavaType
    | none => s
  let r := s.constant_pool.methodref cls name desc.toDescString
  { s with constant_pool := r.2, code := (s.code.write_u8 0xB8).write_u16 r.1 }

/-- `MethodWriter::emit_invokeinterface`: pop receiver and arguments, push
the return type, write the opcode, the interfacemethodref, the popped slot
count and a zero pad byte. -/
def emit_invokeinterface (s : MethodWriterState) (cls name : String) (desc : MethodDescriptor) :
    MethodWriterState :=
  let stack_s := s.current_frame.stack.len
  let s := record_pop s
  let s := desc.params.foldl (fun s _ => record_pop s) s
  let arg_count := (stack_s - s.current_frame.stack.len) % 256
  let s := match desc.ret with
    | some rt => record_push_ty s rt.toJavaType
    | none => s
  let r := s.constant_pool.interfacemethodref cls name desc.toDescString
  { s with constant_pool := r.2,
           code := (((s.code.write_u8 0xB9).write_u16 r.1).write_u8 arg_count).write_u8 0 }

/-- `VerificationType::serialize` into bytes; the Object case is a todo!
panic in the source, modelled as none. -/
def VerificationType.serialize : VerificationType → Option (List Nat)
  | VerificationType.Top => some [0]
  | VerificationType.Integer => some [1]
  | VerificationType.Float => some [2]
  | VerificationType.Long => some [4, 0]
  | VerificationType.Double => some [3, 0]
  | VerificationType.Null => some [5]
  | VerificationType.UninitializedThis => some [6]
  | VerificationType.Object _ => none
  | VerificationType.UninitializedVariable loc => some (8 :: u16bytes loc)

/-- `calculate_initial_stackframe`: empty stack, locals derived from the
descriptor parameters. -/
def calculate_initial_stackframe (d : MethodDescriptor) : StackMapFrame :=
  ⟨VerificationTypeList.ofList [],
   VerificationTypeList.ofList (d.params.map (fun e =>
     match e with
     | DescriptorEntry.Byte => VerificationType.Integer
     | DescriptorEntry.Char => VerificationType.Integer
     | DescriptorEntry.Double => VerificationType.Double
     | DescriptorEntry.Float => VerificationType.Float
     | DescriptorEntry.Int => VerificationType.Integer
     | DescriptorEntry.Long => VerificationType.Long
     | DescriptorEntry.Class x => VerificationType.Object x
     | DescriptorEntry.Short => VerificationType.Integer
     | DescriptorEntry.Boolean => VerificationType.Integer
     | DescriptorEntry.Array x => VerificationType.Object ("[" ++ x.toDescString)))⟩

/-- The serialized items of a verification-type list (full-frame payload). -/
def vtlSerialize (l : VerificationTypeList) : Option (List Nat) :=
  (l.items.mapM VerificationType.serialize).map List.flatten

/-- The loop body of the stack-map-table serialization in
`MethodData::serialize`: same-frame / same-frame-extended / full-frame
records, tracking previous location and previous frame. -/
def serializeFrames (entries : List (Nat × StackMapFrame)) (prevLoc : Nat)
    (prevFrame : StackMapFrame) : Option (List Nat) :=
  match entries with
  | [] => some []
  | (location, frame) :: rest =>
    let offset := location - prevLoc
    let head : Option (List Nat) :=
      if frame.stack.is_empty ∧ prevFrame.locals = frame.locals then
        if offset < 64 then some [offset % 256]
        else some (251 :: u16bytes offset)
      else
        match vtlSerialize frame.locals, vtlSerialize frame.stack with
        | some lb, some sb =>
          some (255 :: (u16bytes offset ++ u16bytes frame.locals.len ++ lb ++
                        u16bytes frame.stack.len ++ sb))
        | _, _ => none
    match head, serializeFrames rest (location + 1) frame with
    | some h, some t => some (h ++ t)
    | _, _ => none

/-- struct MethodData (the per-method record held by the class writer). -/
structure MethodData where
  access_flag : Nat
  name_ref : Nat
  desc_ref : Nat
  descriptor : MethodDescriptor
  code : ByteBuffer
  max_stack_size : Nat
  stackmaptable : List (Nat × StackMapFrame)
deriving DecidableEq

/-- `MethodData::needs_stack_map_table`. -/
def MethodData.needs_stack_map_table (m : MethodData) : Bool :=
  !m.stackmaptable.isEmpty

/-- The StackMapTable attribute body built inside `MethodData::serialize`:
the entry count followed by the per-frame records starting from the implicit
initial frame. -/
def MethodData.stack_map_table_bytes (m : MethodData) : Option (List Nat) :=
  (serializeFrames m.stackmaptable 0 (calculate_initial_stackframe m.descriptor)).map
    (fun fs => u16bytes m.stackmaptable.length ++ fs)

/-- `MethodData::serialize`: method_info record with a single Code attribute,
max_stack from the high-water mark, max_locals hard-coded to 50 (the
`// TODO: max-locals` line of the source), the code bytes, no exception
table, and the optional StackMapTable attribute. -/
def MethodData.serialize (m : MethodData) (code_attribute : Nat)
    (stack_map_table_attr : Option Nat) : Option (List Nat) :=
  let base (extra : Nat) : List Nat :=
    u16bytes m.access_flag ++ u16bytes m.name_ref ++ u16bytes m.desc_ref ++
    u16bytes 1 ++ u16bytes code_attribute ++
    u32bytes (m.code.data.length + 12 + extra) ++
    u16bytes m.max_stack_size ++ u16bytes 50 ++
    u32bytes m.code.data.length ++ m.code.data ++ u16bytes 0
  if m.needs_stack_map_table then
    match m.stack_map_table_bytes, stack_map_table_attr with
    | some tbl, some attr =>
      some (base (tbl.length + 6) ++ u16bytes 1 ++ u16bytes attr ++
            u32bytes tbl.length ++ tbl)
    | _, _ => none
  else
    some (base 0 ++ u16bytes 0)

/-- struct ClassMetadata. -/
structure ClassMetadata where
  is_public : Bool
  is_final : Bool
  is_interface : Bool
  is_abstract : Bool
  is_synthetic : Bool
  is_annotation_ : Bool
  is_enum : Bool
  is_module_ : Bool
  this_class : String
  super_class : String

/-- `ClassMetadata::get_access_flag` (the SUPER bit 0x20 is always set). -/
def ClassMetadata.get_access_flag (m : ClassMetadata) : Nat :=
  (if m.is_public then 0x0001 else 0) |||
  (if m.is_final then 0x0010 else 0) ||| 0x0020 |||
  (if m.is_interface then 0x0200 else 0) |||
  (if m.is_abstract then 0x0400 else 0) |||
  (if m.is_synthetic then 0x1000 else 0) |||
  (if m.is_annotation_ then 0x2000 else 0) |||
  (if m.is_enum then 0x4000 else 0) |||
  (if m.is_module_ then 0x8000 else 0)

/-- struct ClassFileWriter: the already-written output stream prefix (the
header), the class references, the constant pool and the method records.
The source has no storage for fields. -/
structure ClassFileWriter where
  output : List Nat
  access_flag : Nat
  this_ref : Nat
  super_ref : Nat
  constant_pool : ConstantPool
  methods : List MethodData

/-- `ClassFileWriter::write_classfile` followed by `write_header`: interns
the class references and writes magic, minor version 0, major version 65. -/
def write_classfile (metadata : ClassMetadata) : ClassFileWriter :=
  let p0 := ConstantPool.empty
  let t := p0.cls metadata.this_class
  let su := t.2.cls metadata.super_class
  { output := [0xCA, 0xFE, 0xBA, 0xBE, 0, 0, 0, 65],
    access_flag := metadata.get_access_flag,
    this_ref := t.1,
    super_ref := su.1,
    constant_pool := su.2,
    methods := [] }

/-- `ClassFileWriter::finalize`: intern the attribute names, serialize the
pool, then access flags, this_class, super_class, an interfaces count of 0,
a fields count of 0, the method count and methods, and a class attribute
count of 0. -/
def ClassFileWriter.finalize (w : ClassFileWriter) : Option (List Nat) :=
  let ca := w.constant_pool.utf8 "Code"
  let st :=
    if w.methods.any MethodData.needs_stack_map_table then
      let u := ca.2.utf8 "StackMapTable"
      (some u.1, u.2)
    else (none, ca.2)
  match w.methods.mapM (fun m => m.serialize ca.1 st.1) with
  | none => none
  | some bodies =>
    some (w.output ++ st.2.serialize ++
          u16bytes w.access_flag ++ u16bytes w.this_ref ++ u16bytes w.super_ref ++
          u16bytes 0 ++ u16bytes 0 ++
          u16bytes w.methods.length ++ bodies.flatten ++ u16bytes 0)

/-- Association-list lookup, modelling `HashMap::get`. -/
def alLookup {κ α : Type} [DecidableEq κ] (l : List (κ × α)) (k : κ) : Option α :=
  match l with
  | [] => none
  | p :: rest => if p.1 = k then some p.2 else alLookup rest k

/-- Association-list insert-or-replace, modelling `HashMap::insert`. -/
def alInsert {κ α : Type} [DecidableEq κ] (l : List (κ × α)) (k : κ) (v : α) :
    List (κ × α) :=
  match l with
  | [] => [(k, v)]
  | p :: rest => if p.1 = k then (k, v) :: rest else p :: alInsert rest k v

/-- Association-list removal, modelling `HashMap::remove`. -/
def alErase {κ α : Type} [DecidableEq κ] (l : List (κ × α)) (k : κ) : List (κ × α) :=
  match l with
  | [] => []
  | p :: rest => if p.1 = k then rest else p :: alErase rest k

/-- struct BasicBlockTracker (src/lib.rs): blocks are identified here by an
opaque Nat id standing for the LLVM BasicBlock identity. -/
structure BasicBlockTracker where
  already_written : List (Nat × Nat)
  to_write : List (Nat × List InstructionTarget)

/-- struct MemorySegmentEmitter (src/memory.rs): lazily materialized
stack-pointer locals (base slot, offset slot) and the dirty flag. -/
structure MemorySegmentEmitter where
  stack_pointer : Option (Nat × Nat)
  dirty : Bool

/-- The subset of struct FunctionTranslationContext the claims depend on:
the method writer, the parameter and SSA-value slot maps (LLVM values are
identified by opaque Nat ids), the `next_slot` counter, the memory emitter
state and the basic-block tracker. -/
structure FunctionTranslationContext where
  java_method : MethodWriterState
  params : List (Nat × Nat)
  ssa_values : List (Nat × Nat)
  next_slot : Nat
  memory_allocation_info : MemorySegmentEmitter
  basic_block_tracker : BasicBlockTracker

/-- `FunctionTranslationContext::new`: `next_slot` starts at the parameter
count (as u16) and each parameter is mapped to its declaration index. -/
def FunctionTranslationContext.new (params : List Nat) (jm : MethodWriterState) :
    FunctionTranslationContext :=
  { java_method := jm,
    params := params.enum.map (fun p => (p.2, p.1 % 65536)),
    ssa_values := [],
    next_slot := params.length % 65536,
    memory_allocation_info := ⟨none, false⟩,
    basic_block_tracker := ⟨[], []⟩ }

/-- `FunctionTranslationContext::get_next_slot`: return the counter and
advance it by one (u16 wrap-around), regardless of the value's kind. -/
def get_next_slot (c : FunctionTranslationContext) : Nat × FunctionTranslationContext :=
  (c.next_slot, { c with next_slot := (c.next_slot + 1) % 65536 })

/-- The slot-assignment part of `translate_and_store` for a value `v` of
non-void java type `ty` (the value itself has just been emitted by
`translate`): allocate one slot, emit the store, record the mapping. -/
def store_result (c : FunctionTranslationContext) (v : Nat) (ty : JavaType) :
    FunctionTranslationContext :=
  let r := get_next_slot c
  { r.2 with
    java_method := emit_store r.2.java_method ty r.1,
    ssa_values := alInsert r.2.ssa_values v r.1 }

/-- `FunctionTranslationContext::record_start_of_basic_block`: capture the
current location, patch every pending InstructionTarget queued for the
block, record the block's location, and record the current stack-map frame
at that location. -/
def record_start_of_basic_block (c : FunctionTranslationContext) (block : Nat) :
    FunctionTranslationContext :=
  let block_location := current_location c.java_method
  let jm := match alLookup c.basic_block_tracker.to_write block with
    | some to_write => to_write.foldl (fun m t => set_target m t block_location) c.java_method
    | none => c.java_method
  let tracker : BasicBlockTracker :=
    { already_written := alInsert c.basic_block_tracker.already_written block block_location,
      to_write := alErase c.basic_block_tracker.to_write block }
  let jm := record_stackframe jm block_location (get_current_stackframe jm)
  { c with java_method := jm, basic_block_tracker := tracker }

/-- `FunctionTranslationContext::set_target_to_basic_block`: resolve
immediately from `already_written` when the block has started, otherwise
queue the target on `to_write`. -/
def set_target_to_basic_block (c : FunctionTranslationContext)
    (target_ref : InstructionTarget) (target : Nat) : FunctionTranslationContext :=
  match alLookup c.basic_block_tracker.already_written target with
  | some location =>
    { c with java_method := set_target c.java_method target_ref location }
  | none =>
    let queued := (alLookup c.basic_block_tracker.to_write target).getD []
    { c with basic_block_tracker :=
        { c.basic_block_tracker with
          to_write := alInsert c.basic_block_tracker.to_write target (queued ++ [target_ref]) } }

/-- The binary name of the MemorySegmentStack support class; the concrete
name is generated at build time (class name plus a content hash), its value
is irrelevant to the claims. -/
def memorysegmentstack_name : String := "MemorySegmentStack"

/-- The iinc constant computed by `MemorySegmentEmitter::const_stack_alloc`:
`-(size as i16)` -- the u64 size truncated to i16, then negated with
two's-complement wrap-around (release-mode semantics; a debug build panics
on the single overflowing case). -/
def stackAllocIincConstant (size : Nat) : Int := i16wrap (-(u64AsI16 size))

/-- `MemorySegmentEmitter::get_stack_pointer_local`: on first use allocate
two locals via `get_next_slot` and emit the getBase/getOffset loads. -/
def get_stack_pointer_local (c : FunctionTranslationContext) :
    (Nat × Nat) × FunctionTranslationContext :=
  match c.memory_allocation_info.stack_pointer with
  | some x => (x, c)
  | none =>
    let rb := get_next_slot c
    let ro := get_next_slot rb.2
    let base := rb.1
    let offset := ro.1
    let c := { ro.2 with memory_allocation_info :=
               { ro.2.memory_allocation_info with stack_pointer := some (base, offset) } }
    let jm := emit_invokestatic c.java_method memorysegmentstack_name "getBase"
      ⟨[], some (DescriptorEntry.Class "java/lang/foreign/MemorySegment")⟩
    let jm := emit_store jm JavaType.Reference base
    let jm := emit_invokestatic jm memorysegmentstack_name "getOffset"
      ⟨[], some DescriptorEntry.Int⟩
    let jm := emit_store jm JavaType.Int offset
    ((base, offset), { c with java_method := jm })

/-- `MemorySegmentEmitter::const_stack_alloc`: decrement the offset local by
the (truncated) size via iinc, then push base.asSlice(offset as long). -/
def const_stack_alloc (c : FunctionTranslationContext) (size : Nat) :
    FunctionTranslationContext :=
  let r := get_stack_pointer_local c
  let sp := r.1
  let c := r.2
  let jm := emit_iinc c.java_method sp.2 (stackAllocIincConstant size)
  let jm := emit_load jm JavaType.Reference sp.1
  let jm := emit_load jm JavaType.Int sp.2
  let jm := emit_i2l jm
  let jm := emit_invokeinterface jm "java/lang/foreign/MemorySegment" "asSlice"
    ⟨[DescriptorEntry.Long], some (DescriptorEntry.Class "java/lang/foreign/MemorySegment")⟩
  { c with java_method := jm,
           memory_allocation_info := { c.memory_allocation_info with dirty := true } }

/-- One step of the planner loop in `compile`:
`class_plans.entry(location.class).or_insert_with(default).methods.push(..)`.
The per-class member vector keeps insertion order. -/
def addToPlan (plans : List (String × List String)) (cls m : String) :
    List (String × List String) :=
  match alLookup plans cls with
  | some ms => alInsert plans cls (ms ++ [m])
  | none => plans ++ [(cls, [m])]

/-- The contents of the `class_plans : HashMap<String, ClassPlan>` built by
`compile`, as an association list; a HashMap itself carries no order, so
only the key set and the per-key member lists are meaningful. -/
def classPlansOf (fns : List String) (mapper : String → String × String) :
    List (String × List String) :=
  fns.foldl (fun acc f => let l := mapper f; addToPlan acc l.1 l.2) []

/-- The sequence of archive entries written by the
`for (class, plan) in class_plans` loop of `compile`, for a given HashMap
iteration order (the order is NOT determined by the inputs; Rust's HashMap
iterates in a per-process random order). -/
def archiveClassEntries (plans : List (String × List String)) (order : List String) :
    List (String × List String) :=
  order.filterMap (fun c => (alLookup plans c).map (fun ms => (c ++ ".class", ms)))

/-! ## Helper lemmas -/

theorem write_u8_append (b : ByteBuffer) (v : Nat) (h : b.wpos = b.data.length) :
    b.write_u8 v = ⟨b.data ++ [v], b.data.length + 1⟩ := by
  simp [ByteBuffer.write_u8, h]

theorem write_u8_set (b : ByteBuffer) (v : Nat) (h : b.wpos < b.data.length) :
    b.write_u8 v = ⟨b.data.set b.wpos v, b.wpos + 1⟩ := by
  simp [ByteBuffer.write_u8, h]

theorem record_push_code (s : MethodWriterState) (t : VerificationType) :
    (record_push s t).code = s.code := by
  simp [record_push]

theorem record_push_ty_code (s : MethodWriterState) (t : JavaType) :
    (record_push_ty s t).code = s.code := by
  cases t <;> simp [record_push_ty, record_push_code]

theorem record_pop_code (s : MethodWriterState) : (record_pop s).code = s.code := by
  simp [record_pop]

/-- C7 helper: the bytes emitted by `emit_load_store_inner` in append
position, split by the slot ranges. -/
theorem emit_load_store_inner_bytes (s : MethodWriterState) (sh lf index : Nat)
    (h : s.code.wpos = s.code.data.length) :
    (index ≤ 3 →
      (emit_load_store_inner s sh lf index).code.data = s.code.data ++ [sh + index]) ∧
    (4 ≤ index → index ≤ 255 →
      (emit_load_store_inner s sh lf index).code.data = s.code.data ++ [lf, index]) ∧
    (256 ≤ index →
      (emit_load_store_inner s sh lf index).code.data =
        s.code.data ++ [0xC4, lf, index % 65536 / 256, index % 256]) := by
  obtain ⟨pool, ⟨d, w⟩, ms, fr, smt⟩ := s
  simp only at h
  subst h
  refine ⟨?_, ?_, ?_⟩
  · intro h3
    interval_cases index <;>
      simp [emit_load_store_inner, write_u8_append]
  · intro h4 h255
    have h0 : ¬ index = 0 := by omega
    have h1 : ¬ index = 1 := by omega
    have h2 : ¬ index = 2 := by omega
    have h3 : ¬ index = 3 := by omega
    simp [emit_load_store_inner, h0, h1, h2, h3,
          emit_opcode_referencing_local_var, h255, ByteBuffer.write_u8]
  · intro h256
    have h0 : ¬ index = 0 := by omega
    have h1 : ¬ index = 1 := by omega
    have h2 : ¬ index = 2 := by omega
    have h3 : ¬ index = 3 := by omega
    have h255 : ¬ index ≤ 255 := by omega
    simp [emit_load_store_inner, h0, h1, h2, h3,
          emit_opcode_referencing_local_var, h255, ByteBuffer.write_u16, ByteBuffer.write_u8]

/-! ## C7 -/

/-- C7: for every load or store of a local of any kind, slots 0-3 use the
dedicated single-byte form, slots 4-255 the 2-byte form (opcode plus 8-bit
index), and slots 256 and up the wide-prefixed 3-byte form (wide prefix,
opcode, 16-bit index); the encoding flips exactly at slot 4 and slot 256. -/
theorem emit_load_store_slot_encoding (s : MethodWriterState) (ty : JavaType) (index : Nat)
    (h : s.code.wpos = s.code.data.length) :
    (index ≤ 3 →
      (emit_load s ty index).code.data = s.code.data ++ [loadShortOp ty + index] ∧
      (emit_store s ty index).code.data = s.code.data ++ [storeShortOp ty + index]) ∧
    (4 ≤ index → index ≤ 255 →
      (emit_load s ty index).code.data = s.code.data ++ [loadLongOp ty, index] ∧
      (emit_store s ty index).code.data = s.code.data ++ [storeLongOp ty, index]) ∧
    (256 ≤ index →
      (emit_load s ty index).code.data =
        s.code.data ++ [0xC4, loadLongOp ty, index % 65536 / 256, index % 256] ∧
      (emit_store s ty index).code.data =
        s.code.data ++ [0xC4, storeLongOp ty, index % 65536 / 256, index % 256]) := by
  have hl := emit_load_store_inner_bytes s (loadShortOp ty) (loadLongOp ty) index h
  have hs := emit_load_store_inner_bytes s (storeShortOp ty) (storeLongOp ty) index h
  have el : (emit_load s ty index).code.data =
      (emit_load_store_inner s (loadShortOp ty) (loadLongOp ty) index).code.data := by
    simp [emit_load, record_push_ty_code]
  have es : (emit_store s ty index).code.data =
      (emit_load_store_inner s (storeShortOp ty) (storeLongOp ty) index).code.data := by
    simp [emit_store, record_pop_code]
  refine ⟨fun h3 => ⟨?_, ?_⟩, fun h4 h255 => ⟨?_, ?_⟩, fun h256 => ⟨?_, ?_⟩⟩
  · rw [el]; exact hl.1 h3
  · rw [es]; exact hs.1 h3
  · rw [el]; exact hl.2.1 h4 h255
  · rw [es]; exact hs.2.1 h4 h255
  · rw [el]; exact hl.2.2 h256
  · rw [es]; exact hs.2.2 h256

/-- Witness for C7 at the wide boundary: a long load/store of slot 256 on a
fresh writer state. -/
theorem emit_load_store_slot_encoding_witness :
    MethodWriterState.fresh.code.wpos = MethodWriterState.fresh.code.data.length ∧
    (emit_load MethodWriterState.fresh JavaType.Long 256).code.data = [0xC4, 0x16, 1, 0] ∧
    (emit_store MethodWriterState.fresh JavaType.Long 256).code.data = [0xC4, 0x37, 1, 0] := by
  have h := (emit_load_store_slot_encoding MethodWriterState.fresh JavaType.Long 256 rfl).2.2
    (by omega)
  exact ⟨rfl, by simpa using h.1, by simpa using h.2⟩

/-! ## C2 -/

/-- C2 counterexample: ConstInt(0) on a fresh writer is emitted as a 2-byte
LDC pool load (bytes 0x12, ref 1), not as the 1-byte small-integer form
(iconst_0 = 0x03) although that form can represent 0. -/
theorem emit_constant_int_zero_not_small_form :
    (emit_constant_int MethodWriterState.fresh 0).code.data = [0x12, 1] ∧
    (emit_constant_int MethodWriterState.fresh 0).code.data.length ≠ 1 := by
  constructor
  · rfl
  · decide

/-- C2 amended: `emit_constant_int` always interns the value in the constant
pool and emits a pool-reference load -- LDC with an 8-bit reference when the
reference fits a byte, LDC_w with a 16-bit reference otherwise; the
1-byte small-integer instruction forms are never used. -/
theorem emit_constant_int_always_pool_load (s : MethodWriterState) (n : Int)
    (h : s.code.wpos = s.code.data.length) :
    (emit_constant_int s n).constant_pool = (s.constant_pool.int n).2 ∧
    (emit_constant_int s n).code.data =
      s.code.data ++
        (if (s.constant_pool.int n).1 ≤ 255 then [0x12, (s.constant_pool.int n).1]
         else [0x13, (s.constant_pool.int n).1 % 65536 / 256,
               (s.constant_pool.int n).1 % 256]) ∧
    (emit_constant_int s n).current_frame.stack =
      s.current_frame.stack.push VerificationType.Integer := by
  obtain ⟨pool, ⟨d, w⟩, ms, fr, smt⟩ := s
  simp only at h
  subst h
  by_cases hc : (ConstantPool.int pool n).1 ≤ 255 <;>
    simp [emit_constant_int, hc, record_push, write_u8_append,
          ByteBuffer.write_u16, ByteBuffer.write_u8]

/-- Witness for C2's amended statement at n = 5 on a fresh writer. -/
theorem emit_constant_int_always_pool_load_witness :
    MethodWriterState.fresh.code.wpos = MethodWriterState.fresh.code.data.length ∧
    (emit_constant_int MethodWriterState.fresh 5).code.data = [0x12, 1] := by
  refine ⟨rfl, ?_⟩
  have h := (emit_constant_int_always_pool_load MethodWriterState.fresh 5 rfl).2.1
  simpa [MethodWriterState.fresh, ConstantPool.empty, ConstantPool.int, insert_full,
         cpIdxOf, cpref, ByteBuffer.new] using h

/-! ## C10 -/

/-- A translation context whose stack-pointer locals (base 0, offset 1) are
already materialized, used to evaluate `const_stack_alloc` concretely. -/
def spAllocCtx : FunctionTranslationContext :=
  { java_method := MethodWriterState.fresh, params := [], ssa_values := [],
    next_slot := 2, memory_allocation_info := ⟨some (0, 1), false⟩,
    basic_block_tracker := ⟨[], []⟩ }

/-- C10 counterexample: at size 32768 -- outside the 0..32767 range -- the
two truncating/wrapping steps cancel and the emitted (wide) iinc constant is
-32768, so the offset local is decremented by exactly 32768 after all: the
claim that the decrement differs from s for every out-of-range s is false.
The code bytes are wide iinc on local 1 by -32768, aload_0, iload_1, i2l,
invokeinterface asSlice. -/
theorem const_stack_alloc_32768_decrement_is_exact :
    stackAllocIincConstant 32768 = -32768 ∧
    -(stackAllocIincConstant 32768) = (32768 : Int) ∧
    ¬(32768 : Nat) ≤ 32767 ∧
    (const_stack_alloc spAllocCtx 32768).java_method.code.data =
      [0xC4, 0x84, 0, 1, 0x80, 0, 0x2a, 0x1b, 0x85, 0xB9, 0, 5, 3, 0] := by
  refine ⟨by decide, by decide, by decide, ?_⟩
  rfl

/-- C10 amended: the iinc emitted by `const_stack_alloc` decrements the
stack-pointer offset local by `-(stackAllocIincConstant s)`; this equals the
requested size s exactly when s ≤ 32767 or s = 32768 (the latter through
two's-complement wrap-around of `-(size as i16)`); for every other size the
decrement silently differs from s, and no encoding-overflow error is raised
anywhere on the path. -/
theorem const_stack_alloc_decrement_characterization (s : Nat) :
    (-(stackAllocIincConstant s) = (s : Int)) ↔ (s ≤ 32767 ∨ s = 32768) := by
  unfold stackAllocIincConstant u64AsI16
  have ht1 : -32768 ≤ i16wrap s ∧ i16wrap s < 32768 := by unfold i16wrap; omega
  have ht2 : ((s : Int) - i16wrap s) % 65536 = 0 := by unfold i16wrap; omega
  have hu1 : -32768 ≤ i16wrap (-(i16wrap s)) ∧ i16wrap (-(i16wrap s)) < 32768 := by
    unfold i16wrap; omega
  have hu2 : ((-(i16wrap s)) - i16wrap (-(i16wrap s))) % 65536 = 0 := by
    generalize i16wrap s = t
    unfold i16wrap
    omega
  generalize i16wrap (-(i16wrap s)) = u at hu1 hu2
  generalize i16wrap s = t at ht1 ht2 hu2
  omega

/-! ## C4 -/

/-- C4 (code bug evidence): allocating a slot for a Long-kinded SSA value
advances `next_slot` by one, not two, so the very next value is assigned the
slot inside the Long's two-slot footprint.  Concretely: on a fresh
zero-parameter function, a Long result is stored at slot 0 (occupying slots
0 and 1 since vtWidth Long = 2) and the next Int result at slot 1, which
overlaps. -/
theorem translate_and_store_long_slot_overlap :
    alLookup (store_result (store_result
        (FunctionTranslationContext.new [] MethodWriterState.fresh) 1 JavaType.Long)
        2 JavaType.Int).ssa_values 1 = some 0 ∧
    alLookup (store_result (store_result
        (FunctionTranslationContext.new [] MethodWriterState.fresh) 1 JavaType.Long)
        2 JavaType.Int).ssa_values 2 = some 1 ∧
    (store_result (store_result
        (FunctionTranslationContext.new [] MethodWriterState.fresh) 1 JavaType.Long)
        2 JavaType.Int).next_slot = 2 ∧
    1 < 0 + vtWidth VerificationType.Long := by
  refine ⟨by decide, by decide, by decide, by decide⟩

/-! ## C3 -/

/-- C3 (code bug evidence): for every method without a stack-map table the
serialized Code attribute carries max_locals = 50 (bytes 16-17 of the
method_info record), a hard-coded constant, while max_stack (bytes 14-15)
does come from the tracker's high-water mark; and the translator's
`next_slot` for a one-int-parameter function is 1, not 50. -/
theorem serialize_max_locals_is_constant_50 (m : MethodData) (ca : Nat) (sa : Option Nat)
    (h : m.stackmaptable = []) :
    (m.serialize ca sa).map (fun bs => (bs.drop 16).take 2) = some [0, 50] ∧
    (m.serialize ca sa).map (fun bs => (bs.drop 14).take 2) =
      some [m.max_stack_size % 65536 / 256, m.max_stack_size % 256] ∧
    (FunctionTranslationContext.new [100] MethodWriterState.fresh).next_slot = 1 := by
  refine ⟨?_, ?_, by decide⟩ <;>
    simp [MethodData.serialize, MethodData.needs_stack_map_table, h, u16bytes, u32bytes]

/-- The writer state after emitting the identity-function body
(iload_0; ireturn). -/
def idMethodCode : MethodWriterState :=
  emit_return (emit_load MethodWriterState.fresh JavaType.Int 0) (some JavaType.Int)

/-- The MethodData of the identity method (descriptor (I)I), as written. -/
def idMethodData : MethodData :=
  { access_flag := 0x0019, name_ref := 1, desc_ref := 2,
    descriptor := ⟨[DescriptorEntry.Int], some DescriptorEntry.Int⟩,
    code := idMethodCode.code, max_stack_size := idMethodCode.max_stack_size,
    stackmaptable := idMethodCode.stackmaptable }

/-- Witness for C3 on the concrete identity method. -/
theorem serialize_max_locals_is_constant_50_witness :
    idMethodData.stackmaptable = [] ∧
    (idMethodData.serialize 3 none).map (fun bs => (bs.drop 16).take 2) = some [0, 50] :=
  ⟨rfl, (serialize_max_locals_is_constant_50 idMethodData 3 none rfl).1⟩

/-! ## C9 -/

/-- The class writer freshly opened for a class "A" extending
java/lang/Object (public + final, as `compile` requests). -/
def classAWriter : ClassFileWriter :=
  write_classfile ⟨true, true, false, false, false, false, false, false,
                   "A", "java/lang/Object"⟩

/-- C9 (code bug evidence): `finalize` writes, after the constant pool, the
access flags (0x31), this_class (2), super_class (4), an interfaces count of
0, then a FIELDS COUNT OF 0 with no field entries whatsoever, then the
method count and a class attribute count of 0 -- while the planner in
`compile` does plan fields per class (the same entry/push pattern as for
methods).  The field-count bytes are positions 54-55 of the file. -/
theorem finalize_emits_no_field_entries :
    classAWriter.finalize =
      some ([202, 254, 186, 190, 0, 0, 0, 65] ++
            [0, 6, 1, 0, 1, 65, 7, 0, 1, 1, 0, 16] ++ strBytes "java/lang/Object" ++
            [7, 0, 3, 1, 0, 4, 67, 111, 100, 101] ++
            [0, 49] ++ [0, 2] ++ [0, 4] ++ [0, 0] ++ [0, 0] ++ [0, 0] ++ [0, 0]) ∧
    (classAWriter.finalize).map (fun l => (l.drop 54).take 2) = some [0, 0] ∧
    classPlansOf ["g"] (fun _ => ("A", "x")) = [("A", ["x"])] := by
  refine ⟨by rfl, by rfl, by rfl⟩

/-! ## C1 -/

/-- The name mapping used for the two-class determinism scenario. -/
def twoClassMapper : String → String × String :=
  fun s => if s = "f" then ("A", "f") else ("B", "g")

/-- C1 (code bug evidence): `compile` iterates `class_plans` -- a
`HashMap<String, ClassPlan>` whose iteration order is per-process random --
when writing the archive.  Both ["A", "B"] and ["B", "A"] are enumerations
of exactly the planned classes, yet they produce different archive entry
sequences, so the byte output is not a function of the inputs alone; the
per-class member lists themselves are in stable insertion order. -/
theorem compile_archive_order_depends_on_hashmap_order :
    (["A", "B"].Perm ((classPlansOf ["f", "g"] twoClassMapper).map Prod.fst)) ∧
    (["B", "A"].Perm ((classPlansOf ["f", "g"] twoClassMapper).map Prod.fst)) ∧
    archiveClassEntries (classPlansOf ["f", "g"] twoClassMapper) ["A", "B"] ≠
      archiveClassEntries (classPlansOf ["f", "g"] twoClassMapper) ["B", "A"] ∧
    alLookup (classPlansOf ["f", "g"] twoClassMapper) "A" = some ["f"] ∧
    alLookup (classPlansOf ["f", "g"] twoClassMapper) "B" = some ["g"] := by
  refine ⟨by decide, by decide, by decide, by decide, by decide⟩

/-! ## C8 -/

theorem cpIdxOf_append_of_some (l l2 : List ConstantPoolEntry) (e : ConstantPoolEntry)
    (i : Nat) (h : cpIdxOf l e = some i) : cpIdxOf (l ++ l2) e = some i := by
  induction l generalizing i with
  | nil => simp [cpIdxOf] at h
  | cons a as ih =>
    by_cases ha : a = e
    · simp [cpIdxOf, ha] at h ⊢
      exact h
    · simp [cpIdxOf, ha] at h ⊢
      obtain ⟨j, hj, hij⟩ := h
      exact ⟨j, ih j hj, hij⟩

theorem cpIdxOf_append_self_of_none (l : List ConstantPoolEntry) (e : ConstantPoolEntry)
    (h : cpIdxOf l e = none) : cpIdxOf (l ++ [e]) e = some l.length := by
  induction l with
  | nil => simp [cpIdxOf]
  | cons a as ih =>
    by_cases ha : a = e
    · simp [cpIdxOf, ha] at h
    · simp [cpIdxOf, ha] at h ⊢
      simp [ih h]

theorem insert_full_of_idx (l : List ConstantPoolEntry) (e : ConstantPoolEntry) (i : Nat)
    (h : cpIdxOf l e = some i) : insert_full l e = (i, l) := by
  simp [insert_full, h]

theorem cpIdxOf_insert_full_self (l : List ConstantPoolEntry) (e : ConstantPoolEntry) :
    cpIdxOf (insert_full l e).2 e = some (insert_full l e).1 := by
  unfold insert_full
  cases h : cpIdxOf l e with
  | none => simpa using cpIdxOf_append_self_of_none l e h
  | some i => simpa using h

theorem cpIdxOf_insert_full_stable (l : List ConstantPoolEntry) (e e2 : ConstantPoolEntry)
    (i : Nat) (h : cpIdxOf l e = some i) : cpIdxOf (insert_full l e2).2 e = some i := by
  unfold insert_full
  cases h2 : cpIdxOf l e2 with
  | none => simpa using cpIdxOf_append_of_some l [e2] e i h
  | some j => simpa using h

theorem utf8_stable (p : ConstantPool) (s : String) (e : ConstantPoolEntry) (i : Nat)
    (h : cpIdxOf p.entries e = some i) : cpIdxOf (p.utf8 s).2.entries e = some i := by
  simpa [ConstantPool.utf8] using
    cpIdxOf_insert_full_stable p.entries e (ConstantPoolEntry.Utf8 s) i h

theorem utf8_spec (p : ConstantPool) (s : String) :
    ∃ i, cpIdxOf (p.utf8 s).2.entries (ConstantPoolEntry.Utf8 s) = some i ∧
      (p.utf8 s).1 = cpref i := by
  exact ⟨(insert_full p.entries (ConstantPoolEntry.Utf8 s)).1,
    by simpa [ConstantPool.utf8] using
      cpIdxOf_insert_full_self p.entries (ConstantPoolEntry.Utf8 s), rfl⟩

theorem utf8_of_present (p : ConstantPool) (s : String) (i : Nat)
    (h : cpIdxOf p.entries (ConstantPoolEntry.Utf8 s) = some i) :
    p.utf8 s = (cpref i, p) := by
  simp [ConstantPool.utf8, insert_full_of_idx p.entries _ i h]

theorem single_insert_idem (l : List ConstantPoolEntry) (e : ConstantPoolEntry) :
    insert_full (insert_full l e).2 e = insert_full l e := by
  have h := cpIdxOf_insert_full_self l e
  have h2 := insert_full_of_idx (insert_full l e).2 e (insert_full l e).1 h
  rw [h2]

theorem nat_stable (p : ConstantPool) (n d : String) (e : ConstantPoolEntry) (i : Nat)
    (h : cpIdxOf p.entries e = some i) :
    cpIdxOf (p.name_and_type n d).2.entries e = some i := by
  simp only [ConstantPool.name_and_type]
  exact cpIdxOf_insert_full_stable _ _ _ _ (utf8_stable _ _ _ _ (utf8_stable _ _ _ _ h))

theorem nat_spec (p : ConstantPool) (n d : String) :
    ∃ i j k,
      cpIdxOf (p.name_and_type n d).2.entries (ConstantPoolEntry.Utf8 n) = some i ∧
      cpIdxOf (p.name_and_type n d).2.entries (ConstantPoolEntry.Utf8 d) = some j ∧
      cpIdxOf (p.name_and_type n d).2.entries
        (ConstantPoolEntry.NameAndType (cpref i) (cpref j)) = some k ∧
      (p.name_and_type n d).1 = cpref k := by
  obtain ⟨i, hi, hri⟩ := utf8_spec p n
  obtain ⟨j, hj, hrj⟩ := utf8_spec (p.utf8 n).2 d
  have hi2 : cpIdxOf ((p.utf8 n).2.utf8 d).2.entries (ConstantPoolEntry.Utf8 n) = some i :=
    utf8_stable _ _ _ _ hi
  have hE : ConstantPoolEntry.NameAndType (p.utf8 n).1 ((p.utf8 n).2.utf8 d).1 =
      ConstantPoolEntry.NameAndType (cpref i) (cpref j) := by rw [hri, hrj]
  refine ⟨i, j, (insert_full ((p.utf8 n).2.utf8 d).2.entries
      (ConstantPoolEntry.NameAndType (cpref i) (cpref j))).1, ?_, ?_, ?_, ?_⟩
  · simp only [ConstantPool.name_and_type, hE]
    exact cpIdxOf_insert_full_stable _ _ _ _ hi2
  · simp only [ConstantPool.name_and_type, hE]
    exact cpIdxOf_insert_full_stable _ _ _ _ hj
  · simp only [ConstantPool.name_and_type, hE]
    exact cpIdxOf_insert_full_self _ _
  · simp only [ConstantPool.name_and_type, hE]

theorem nat_of_present (p : ConstantPool) (n d : String) (i j k : Nat)
    (hi : cpIdxOf p.entries (ConstantPoolEntry.Utf8 n) = some i)
    (hj : cpIdxOf p.entries (ConstantPoolEntry.Utf8 d) = some j)
    (hk : cpIdxOf p.entries (ConstantPoolEntry.NameAndType (cpref i) (cpref j)) = some k) :
    p.name_and_type n d = (cpref k, p) := by
  simp only [ConstantPool.name_and_type]
  rw [utf8_of_present p n i hi]
  rw [utf8_of_present p d j hj]
  simp [insert_full_of_idx p.entries _ k hk]

theorem utf8_idem (p : ConstantPool) (s : String) :
    (p.utf8 s).2.utf8 s = p.utf8 s := by
  simp [ConstantPool.utf8, single_insert_idem]

theorem int_idem (p : ConstantPool) (v : Int) :
    (p.int v).2.int v = p.int v := by
  simp [ConstantPool.int, single_insert_idem]

theorem cls_idem (p : ConstantPool) (s : String) :
    (p.cls s).2.cls s = p.cls s := by
  obtain ⟨i, hi, hri⟩ := utf8_spec p s
  have hE : ConstantPoolEntry.Class (p.utf8 s).1 = ConstantPoolEntry.Class (cpref i) := by
    rw [hri]
  have hi2 : cpIdxOf (p.cls s).2.entries (ConstantPoolEntry.Utf8 s) = some i := by
    simp only [ConstantPool.cls, hE]
    exact cpIdxOf_insert_full_stable _ _ _ _ hi
  have hk : cpIdxOf (p.cls s).2.entries (ConstantPoolEntry.Class (cpref i)) =
      some (insert_full (p.utf8 s).2.entries (ConstantPoolEntry.Class (cpref i))).1 := by
    simp only [ConstantPool.cls, hE]
    exact cpIdxOf_insert_full_self _ _
  conv_lhs => rw [ConstantPool.cls]
  rw [utf8_of_present (p.cls s).2 s i hi2]
  simp only
  rw [insert_full_of_idx _ _ _ hk]
  simp only [ConstantPool.cls, hE]

theorem nat_idem (p : ConstantPool) (n d : String) :
    (p.name_and_type n d).2.name_and_type n d = p.name_and_type n d := by
  obtain ⟨i, j, k, hi, hj, hk, hr⟩ := nat_spec p n d
  rw [nat_of_present (p.name_and_type n d).2 n d i j k hi hj hk]
  rw [← hr]

theorem fieldref_idem (p : ConstantPool) (c n d : String) :
    (p.fieldref c n d).2.fieldref c n d = p.fieldref c n d := by
  obtain ⟨i, hi, hri⟩ := utf8_spec p c
  obtain ⟨a, b, k, ha, hb, hk, hrk⟩ := nat_spec (p.utf8 c).2 n d
  have hi2 : cpIdxOf ((p.utf8 c).2.name_and_type n d).2.entries
      (ConstantPoolEntry.Utf8 c) = some i := nat_stable _ _ _ _ _ hi
  have hE : ConstantPoolEntry.FieldRef (p.utf8 c).1 ((p.utf8 c).2.name_and_type n d).1 =
      ConstantPoolEntry.FieldRef (cpref i) (cpref k) := by rw [hri, hrk]
  have hfi : cpIdxOf (p.fieldref c n d).2.entries (ConstantPoolEntry.Utf8 c) = some i := by
    simp only [ConstantPool.fieldref, hE]
    exact cpIdxOf_insert_full_stable _ _ _ _ hi2
  have hfa : cpIdxOf (p.fieldref c n d).2.entries (ConstantPoolEntry.Utf8 n) = some a := by
    simp only [ConstantPool.fieldref, hE]
    exact cpIdxOf_insert_full_stable _ _ _ _ ha
  have hfb : cpIdxOf (p.fieldref c n d).2.entries (ConstantPoolEntry.Utf8 d) = some b := by
    simp only [ConstantPool.fieldref, hE]
    exact cpIdxOf_insert_full_stable _ _ _ _ hb
  have hfk : cpIdxOf (p.fieldref c n d).2.entries
      (ConstantPoolEntry.NameAndType (cpref a) (cpref b)) = some k := by
    simp only [ConstantPool.fieldref, hE]
    exact cpIdxOf_insert_full_stable _ _ _ _ hk
  have hff : cpIdxOf (p.fieldref c n d).2.entries
      (ConstantPoolEntry.FieldRef (cpref i) (cpref k)) =
      some (insert_full ((p.utf8 c).2.name_and_type n d).2.entries
        (ConstantPoolEntry.FieldRef (cpref i) (cpref k))).1 := by
    simp only [ConstantPool.fieldref, hE]
    exact cpIdxOf_insert_full_self _ _
  conv_lhs => rw [ConstantPool.fieldref]
  rw [utf8_of_present _ c i hfi]
  simp only
  rw [nat_of_present _ n d a b k hfa hfb hfk]
  simp only
  rw [insert_full_of_idx _ _ _ hff]
  simp only [ConstantPool.fieldref, hE]

theorem methodref_idem (p : ConstantPool) (c n d : String) :
    (p.methodref c n d).2.methodref c n d = p.methodref c n d := by
  obtain ⟨i, hi, hri⟩ := utf8_spec p c
  obtain ⟨a, b, k, ha, hb, hk, hrk⟩ := nat_spec (p.utf8 c).2 n d
  have hi2 : cpIdxOf ((p.utf8 c).2.name_and_type n d).2.entries
      (ConstantPoolEntry.Utf8 c) = some i := nat_stable _ _ _ _ _ hi
  have hE : ConstantPoolEntry.MethodRef (p.utf8 c).1 ((p.utf8 c).2.name_and_type n d).1 =
      ConstantPoolEntry.MethodRef (cpref i) (cpref k) := by rw [hri, hrk]
  have hfi : cpIdxOf (p.methodref c n d).2.entries (ConstantPoolEntry.Utf8 c) = some i := by
    simp only [ConstantPool.methodref, hE]
    exact cpIdxOf_insert_full_stable _ _ _ _ hi2
  have hfa : cpIdxOf (p.methodref c n d).2.entries (ConstantPoolEntry.Utf8 n) = some a := by
    simp only [ConstantPool.methodref, hE]
    exact cpIdxOf_insert_full_stable _ _ _ _ ha
  have hfb : cpIdxOf (p.methodref c n d).2.entries (ConstantPoolEntry.Utf8 d) = some b := by
    simp only [ConstantPool.methodref, hE]
    exact cpIdxOf_insert_full_stable _ _ _ _ hb
  have hfk : cpIdxOf (p.methodref c n d).2.entries
      (ConstantPoolEntry.NameAndType (cpref a) (cpref b)) = some k := by
    simp only [ConstantPool.methodref, hE]
    exact cpIdxOf_insert_full_stable _ _ _ _ hk
  have hff : cpIdxOf (p.methodref c n d).2.entries
      (ConstantPoolEntry.MethodRef (cpref i) (cpref k)) =
      some (insert_full ((p.utf8 c).2.name_and_type n d).2.entries
        (ConstantPoolEntry.MethodRef (cpref i) (cpref k))).1 := by
    simp only [ConstantPool.methodref, hE]
    exact cpIdxOf_insert_full_self _ _
  conv_lhs => rw [ConstantPool.methodref]
  rw [utf8_of_present _ c i hfi]
  simp only
  rw [nat_of_present _ n d a b k hfa hfb hfk]
  simp only
  rw [insert_full_of_idx _ _ _ hff]
  simp only [ConstantPool.methodref, hE]

theorem interfacemethodref_idem (p : ConstantPool) (c n d : String) :
    (p.interfacemethodref c n d).2.interfacemethodref c n d = p.interfacemethodref c n d := by
  obtain ⟨i, hi, hri⟩ := utf8_spec p c
  obtain ⟨a, b, k, ha, hb, hk, hrk⟩ := nat_spec (p.utf8 c).2 n d
  have hi2 : cpIdxOf ((p.utf8 c).2.name_and_type n d).2.entries
      (ConstantPoolEntry.Utf8 c) = some i := nat_stable _ _ _ _ _ hi
  have hE : ConstantPoolEntry.InterfaceMethodRef (p.utf8 c).1
        ((p.utf8 c).2.name_and_type n d).1 =
      ConstantPoolEntry.InterfaceMethodRef (cpref i) (cpref k) := by rw [hri, hrk]
  have hfi : cpIdxOf (p.interfacemethodref c n d).2.entries
      (ConstantPoolEntry.Utf8 c) = some i := by
    simp only [ConstantPool.interfacemethodref, hE]
    exact cpIdxOf_insert_full_stable _ _ _ _ hi2
  have hfa : cpIdxOf (p.interfacemethodref c n d).2.entries
      (ConstantPoolEntry.Utf8 n) = some a := by
    simp only [ConstantPool.interfacemethodref, hE]
    exact cpIdxOf_insert_full_stable _ _ _ _ ha
  have hfb : cpIdxOf (p.interfacemethodref c n d).2.entries
      (ConstantPoolEntry.Utf8 d) = some b := by
    simp only [ConstantPool.interfacemethodref, hE]
    exact cpIdxOf_insert_full_stable _ _ _ _ hb
  have hfk : cpIdxOf (p.interfacemethodref c n d).2.entries
      (ConstantPoolEntry.NameAndType (cpref a) (cpref b)) = some k := by
    simp only [ConstantPool.interfacemethodref, hE]
    exact cpIdxOf_insert_full_stable _ _ _ _ hk
  have hff : cpIdxOf (p.interfacemethodref c n d).2.entries
      (ConstantPoolEntry.InterfaceMethodRef (cpref i) (cpref k)) =
      some (insert_full ((p.utf8 c).2.name_and_type n d).2.entries
        (ConstantPoolEntry.InterfaceMethodRef (cpref i) (cpref k))).1 := by
    simp only [ConstantPool.interfacemethodref, hE]
    exact cpIdxOf_insert_full_self _ _
  conv_lhs => rw [ConstantPool.interfacemethodref]
  rw [utf8_of_present _ c i hfi]
  simp only
  rw [nat_of_present _ n d a b k hfa hfb hfk]
  simp only
  rw [insert_full_of_idx _ _ _ hff]
  simp only [ConstantPool.interfacemethodref, hE]

/-- C8: every constant-pool operation is idempotent on equal arguments --
the second call returns the same 1-based reference and leaves the pool's
entry sequence unchanged (the returned reference/pool pair is identical). -/
theorem constant_pool_ops_idempotent :
    (∀ (p : ConstantPool) (s : String), (p.utf8 s).2.utf8 s = p.utf8 s) ∧
    (∀ (p : ConstantPool) (s : String), (p.cls s).2.cls s = p.cls s) ∧
    (∀ (p : ConstantPool) (v : Int), (p.int v).2.int v = p.int v) ∧
    (∀ (p : ConstantPool) (n d : String),
      (p.name_and_type n d).2.name_and_type n d = p.name_and_type n d) ∧
    (∀ (p : ConstantPool) (c n d : String),
      (p.fieldref c n d).2.fieldref c n d = p.fieldref c n d) ∧
    (∀ (p : ConstantPool) (c n d : String),
      (p.methodref c n d).2.methodref c n d = p.methodref c n d) ∧
    (∀ (p : ConstantPool) (c n d : String),
      (p.interfacemethodref c n d).2.interfacemethodref c n d = p.interfacemethodref c n d) :=
  ⟨utf8_idem, cls_idem, int_idem, nat_idem, fieldref_idem, methodref_idem,
   interfacemethodref_idem⟩

/-! ## C5 -/

theorem getElem?_set_self_of_lt (l : List Nat) (i a : Nat) (h : i < l.length) :
    (l.set i a)[i]? = some a := by
  simp [List.getElem?_set_self', List.getElem?_eq_getElem, h]

/-- The shape of `set_target` when the operand bytes lie inside the buffer:
exactly the two placeholder bytes are overwritten and the cursor restored. -/
theorem set_target_eq (s : MethodWriterState) (ti : InstructionTarget) (loc : Nat)
    (h : ti.jump_location + 2 ≤ s.code.data.length) :
    set_target s ti loc =
      { s with code :=
          ⟨(s.code.data.set ti.jump_location
              (dispu16 loc ti.instruction_location % 65536 / 256)).set
            (ti.jump_location + 1) (dispu16 loc ti.instruction_location % 256),
           s.code.wpos⟩ } := by
  obtain ⟨pool, ⟨d, w⟩, ms, fr, smt⟩ := s
  simp only at h
  simp only [set_target, ByteBuffer.set_wpos, ByteBuffer.write_u16, ByteBuffer.get_wpos]
  rw [write_u8_set (ByteBuffer.mk d ti.jump_location)
    (dispu16 loc ti.instruction_location % 65536 / 256) (by simp; omega)]
  rw [write_u8_set (ByteBuffer.mk
      (d.set ti.jump_location (dispu16 loc ti.instruction_location % 65536 / 256))
      (ti.jump_location + 1))
    (dispu16 loc ti.instruction_location % 256) (by simp; omega)]

theorem set_target_get_self (s : MethodWriterState) (ti : InstructionTarget) (loc : Nat)
    (h : ti.jump_location + 2 ≤ s.code.data.length) :
    (set_target s ti loc).code.data[ti.jump_location]? =
      some (dispu16 loc ti.instruction_location % 65536 / 256) ∧
    (set_target s ti loc).code.data[ti.jump_location + 1]? =
      some (dispu16 loc ti.instruction_location % 256) := by
  rw [set_target_eq s ti loc h]
  constructor
  · rw [List.getElem?_set_ne (by omega)]
    exact getElem?_set_self_of_lt _ _ _ (by omega)
  · exact getElem?_set_self_of_lt _ _ _ (by simpa using by omega)

theorem set_target_get_other (s : MethodWriterState) (ti : InstructionTarget) (loc : Nat)
    (h : ti.jump_location + 2 ≤ s.code.data.length) (i : Nat)
    (h1 : i ≠ ti.jump_location) (h2 : i ≠ ti.jump_location + 1) :
    (set_target s ti loc).code.data[i]? = s.code.data[i]? := by
  rw [set_target_eq s ti loc h]
  rw [List.getElem?_set_ne (by omega), List.getElem?_set_ne (by omega)]

theorem set_target_length (s : MethodWriterState) (ti : InstructionTarget) (loc : Nat)
    (h : ti.jump_location + 2 ≤ s.code.data.length) :
    (set_target s ti loc).code.data.length = s.code.data.length := by
  rw [set_target_eq s ti loc h]
  simp

theorem set_target_other_fields (s : MethodWriterState) (ti : InstructionTarget) (loc : Nat) :
    (set_target s ti loc).code.wpos = s.code.wpos ∧
    (set_target s ti loc).current_frame = s.current_frame ∧
    (set_target s ti loc).stackmaptable = s.stackmaptable ∧
    (set_target s ti loc).constant_pool = s.constant_pool ∧
    (set_target s ti loc).max_stack_size = s.max_stack_size := by
  simp [set_target, ByteBuffer.set_wpos, ByteBuffer.get_wpos]

/-- C5: each branch emitter (Goto, IfIcmp, If) appends its opcode plus a
16-bit 0xFEFE placeholder and returns the InstructionTarget pairing the
instruction offset with the operand offset; a later `set_target` overwrites
exactly the two placeholder bytes with the 16-bit two's-complement encoding
of the displacement loc - instruction_offset, leaving every other byte, the
buffer length and the cursor unchanged. -/
theorem branch_emitters_reserve_and_patch (s : MethodWriterState) (cmp : ComparisonType)
    (h : s.code.wpos = s.code.data.length) :
    ((emit_goto s).2.code.data = s.code.data ++ [0xA7, 0xFE, 0xFE] ∧
     (emit_goto s).1.instruction_location = s.code.wpos ∧
     (emit_goto s).1.jump_location = s.code.wpos + 1) ∧
    ((emit_if_icmp s cmp).2.code.data = s.code.data ++ [0x9F + cmp.disc, 0xFE, 0xFE] ∧
     (emit_if_icmp s cmp).1.instruction_location = s.code.wpos ∧
     (emit_if_icmp s cmp).1.jump_location = s.code.wpos + 1) ∧
    ((emit_if s cmp).2.code.data = s.code.data ++ [0x99 + cmp.disc, 0xFE, 0xFE] ∧
     (emit_if s cmp).1.instruction_location = s.code.wpos ∧
     (emit_if s cmp).1.jump_location = s.code.wpos + 1) ∧
    (∀ (s2 : MethodWriterState) (ti : InstructionTarget) (loc : Nat),
      ti.jump_location + 2 ≤ s2.code.data.length →
      (set_target s2 ti loc).code.data[ti.jump_location]? =
        some (dispu16 loc ti.instruction_location % 65536 / 256) ∧
      (set_target s2 ti loc).code.data[ti.jump_location + 1]? =
        some (dispu16 loc ti.instruction_location % 256) ∧
      (∀ i, i ≠ ti.jump_location → i ≠ ti.jump_location + 1 →
        (set_target s2 ti loc).code.data[i]? = s2.code.data[i]?) ∧
      (set_target s2 ti loc).code.data.length = s2.code.data.length ∧
      (set_target s2 ti loc).code.wpos = s2.code.wpos) := by
  refine ⟨?_, ?_, ?_, ?_⟩
  · obtain ⟨pool, ⟨d, w⟩, ms, fr, smt⟩ := s
    simp only at h
    subst h
    simp [emit_goto, current_location, ByteBuffer.get_wpos, ByteBuffer.write_u16,
          write_u8_append, ByteBuffer.write_u8]
  · obtain ⟨pool, ⟨d, w⟩, ms, fr, smt⟩ := s
    simp only at h
    subst h
    simp [emit_if_icmp, record_pop, current_location, ByteBuffer.get_wpos,
          ByteBuffer.write_u16, write_u8_append, ByteBuffer.write_u8]
  · obtain ⟨pool, ⟨d, w⟩, ms, fr, smt⟩ := s
    simp only at h
    subst h
    simp [emit_if, record_pop, current_location, ByteBuffer.get_wpos,
          ByteBuffer.write_u16, write_u8_append, ByteBuffer.write_u8]
  · intro s2 ti loc hb
    refine ⟨(set_target_get_self s2 ti loc hb).1, (set_target_get_self s2 ti loc hb).2,
      fun i h1 h2 => set_target_get_other s2 ti loc hb i h1 h2,
      set_target_length s2 ti loc hb, (set_target_other_fields s2 ti loc).1⟩

/-- Witness for C5: emit_goto on a fresh state, then patching its target to
location 0 (displacement 0 - 0 = 0). -/
theorem branch_emitters_reserve_and_patch_witness :
    MethodWriterState.fresh.code.wpos = MethodWriterState.fresh.code.data.length ∧
    (emit_goto MethodWriterState.fresh).2.code.data = [0xA7, 0xFE, 0xFE] := by
  refine ⟨rfl, ?_⟩
  have h := (branch_emitters_reserve_and_patch MethodWriterState.fresh
    ComparisonType.Equal rfl).1.1
  simpa using h

/-! ## C6 -/

theorem alLookup_alInsert_self {κ α : Type} [DecidableEq κ] (l : List (κ × α)) (k : κ) (v : α) :
    alLookup (alInsert l k v) k = some v := by
  induction l with
  | nil => simp [alInsert, alLookup]
  | cons p rest ih =>
    by_cases hp : p.1 = k
    · simp [alInsert, alLookup, hp]
    · simp [alInsert, alLookup, hp, ih]

theorem alLookup_none_of_not_mem {κ α : Type} [DecidableEq κ] (l : List (κ × α)) (k : κ)
    (h : k ∉ l.map Prod.fst) : alLookup l k = none := by
  induction l with
  | nil => simp [alLookup]
  | cons p rest ih =>
    simp only [List.map_cons, List.mem_cons] at h
    have h1 : p.1 ≠ k := fun he => h (Or.inl he.symm)
    simp [alLookup, h1, ih (fun hm => h (Or.inr hm))]

theorem alLookup_alErase_self {κ α : Type} [DecidableEq κ] (l : List (κ × α)) (k : κ) :
    (l.map Prod.fst).Nodup → alLookup (alErase l k) k = none := by
  induction l with
  | nil =>
    intro _
    simp [alErase, alLookup]
  | cons p rest ih =>
    intro hk
    rw [List.map_cons, List.nodup_cons] at hk
    by_cases hp : p.1 = k
    · simp [alErase, hp, alLookup_none_of_not_mem rest k (hp ▸ hk.1)]
    · simp [alErase, alLookup, hp, ih hk.2]

theorem smtLookup_smtInsert_self (m : List (Nat × StackMapFrame)) (k : Nat)
    (v : StackMapFrame) : smtLookup (smtInsert m k v) k = some v := by
  induction m with
  | nil => simp [smtInsert, smtLookup]
  | cons p rest ih =>
    by_cases h1 : k < p.1
    · simp [smtInsert, h1, smtLookup]
    · by_cases h2 : k = p.1
      · simp [smtInsert, h1, h2, smtLookup]
      · simp [smtInsert, h1, h2, smtLookup, ih]

/-- Two branch operands occupy disjoint byte ranges. -/
def tgtDisjoint (a b : InstructionTarget) : Prop :=
  a.jump_location + 2 ≤ b.jump_location ∨ b.jump_location + 2 ≤ a.jump_location

/-- Folding `set_target` over a list of pending targets with pairwise
disjoint in-range operands patches each target's two bytes and leaves
everything else intact. -/
theorem foldl_set_target_spec (loc : Nat) (ts : List InstructionTarget)
    (s : MethodWriterState)
    (hb : ∀ t ∈ ts, t.jump_location + 2 ≤ s.code.data.length)
    (hd : ts.Pairwise tgtDisjoint) :
    (ts.foldl (fun m t => set_target m t loc) s).code.data.length = s.code.data.length ∧
    (ts.foldl (fun m t => set_target m t loc) s).code.wpos = s.code.wpos ∧
    (ts.foldl (fun m t => set_target m t loc) s).current_frame = s.current_frame ∧
    (ts.foldl (fun m t => set_target m t loc) s).stackmaptable = s.stackmaptable ∧
    (ts.foldl (fun m t => set_target m t loc) s).constant_pool = s.constant_pool ∧
    (∀ i, (∀ t ∈ ts, i ≠ t.jump_location ∧ i ≠ t.jump_location + 1) →
      (ts.foldl (fun m t => set_target m t loc) s).code.data[i]? = s.code.data[i]?) ∧
    (∀ t ∈ ts,
      (ts.foldl (fun m t => set_target m t loc) s).code.data[t.jump_location]? =
        some (dispu16 loc t.instruction_location % 65536 / 256) ∧
      (ts.foldl (fun m t => set_target m t loc) s).code.data[t.jump_location + 1]? =
        some (dispu16 loc t.instruction_location % 256)) := by
  induction ts generalizing s with
  | nil => simp
  | cons t rest ih =>
    have hbt : t.jump_location + 2 ≤ s.code.data.length := hb t (by simp)
    have hlen := set_target_length s t loc hbt
    have hbr : ∀ u ∈ rest, u.jump_location + 2 ≤ (set_target s t loc).code.data.length := by
      intro u hu
      rw [hlen]
      exact hb u (by simp [hu])
    have hdr : rest.Pairwise tgtDisjoint := (List.pairwise_cons.mp hd).2
    have hdt : ∀ u ∈ rest, tgtDisjoint t u := (List.pairwise_cons.mp hd).1
    have ihr := ih (set_target s t loc) hbr hdr
    simp only [List.foldl_cons]
    refine ⟨?_, ?_, ?_, ?_, ?_, ?_, ?_⟩
    · rw [ihr.1, hlen]
    · rw [ihr.2.1, (set_target_other_fields s t loc).1]
    · rw [ihr.2.2.1, (set_target_other_fields s t loc).2.1]
    · rw [ihr.2.2.2.1, (set_target_other_fields s t loc).2.2.1]
    · rw [ihr.2.2.2.2.1, (set_target_other_fields s t loc).2.2.2.1]
    · intro i hi
      have h1 := ihr.2.2.2.2.2.1 i (fun u hu => hi u (by simp [hu]))
      rw [h1]
      exact set_target_get_other s t loc hbt i (hi t (by simp)).1 (hi t (by simp)).2
    · intro u hu
      rcases List.mem_cons.mp hu with he | hmem
      · subst he
        have hsets := set_target_get_self s u loc hbt
        have hj1 : ∀ u2 ∈ rest,
            u.jump_location ≠ u2.jump_location ∧
            u.jump_location ≠ u2.jump_location + 1 := by
          intro u2 hu2
          have hdj := hdt u2 hu2
          unfold tgtDisjoint at hdj
          omega
        have hj2 : ∀ u2 ∈ rest,
            u.jump_location + 1 ≠ u2.jump_location ∧
            u.jump_location + 1 ≠ u2.jump_location + 1 := by
          intro u2 hu2
          have hdj := hdt u2 hu2
          unfold tgtDisjoint at hdj
          omega
        constructor
        · rw [ihr.2.2.2.2.2.1 u.jump_location hj1]
          exact hsets.1
        · rw [ihr.2.2.2.2.2.1 (u.jump_location + 1) hj2]
          exact hsets.2
      · exact ihr.2.2.2.2.2.2 u hmem

/-- C6: `record_start_of_basic_block` captures the current code location,
resolves every InstructionTarget pending for the block (writing each one's
displacement bytes), removes the block's patch-queue entry, records the
block's location in already_written, and records the current stack-map frame
at that location; and `set_target_to_basic_block` resolves immediately from
already_written for a block already started, while queueing the target on
to_write for a block not yet started. -/
theorem record_start_of_basic_block_spec (c : FunctionTranslationContext) (block : Nat)
    (hk : (c.basic_block_tracker.to_write.map Prod.fst).Nodup)
    (hb : ∀ t ∈ (alLookup c.basic_block_tracker.to_write block).getD [],
        t.jump_location + 2 ≤ c.java_method.code.data.length)
    (hd : ((alLookup c.basic_block_tracker.to_write block).getD []).Pairwise tgtDisjoint) :
    alLookup (record_start_of_basic_block c block).basic_block_tracker.already_written
      block = some (current_location c.java_method) ∧
    alLookup (record_start_of_basic_block c block).basic_block_tracker.to_write
      block = none ∧
    (∀ t ∈ (alLookup c.basic_block_tracker.to_write block).getD [],
      (record_start_of_basic_block c block).java_method.code.data[t.jump_location]? =
        some (dispu16 (current_location c.java_method) t.instruction_location
              % 65536 / 256) ∧
      (record_start_of_basic_block c block).java_method.code.data[t.jump_location + 1]? =
        some (dispu16 (current_location c.java_method) t.instruction_location % 256)) ∧
    smtLookup (record_start_of_basic_block c block).java_method.stackmaptable
      (current_location c.java_method) = some c.java_method.current_frame ∧
    (record_start_of_basic_block c block).java_method.code.wpos =
      c.java_method.code.wpos ∧
    (record_start_of_basic_block c block).java_method.code.data.length =
      c.java_method.code.data.length ∧
    (∀ (tr : InstructionTarget) (b loc0 : Nat),
      alLookup c.basic_block_tracker.already_written b = some loc0 →
      set_target_to_basic_block c tr b =
        { c with java_method := set_target c.java_method tr loc0 }) ∧
    (∀ (tr : InstructionTarget) (b : Nat),
      alLookup c.basic_block_tracker.already_written b = none →
      (set_target_to_basic_block c tr b).java_method = c.java_method ∧
      alLookup (set_target_to_basic_block c tr b).basic_block_tracker.to_write b =
        some ((alLookup c.basic_block_tracker.to_write b).getD [] ++ [tr])) := by
  have hsecond1 : ∀ (tr : InstructionTarget) (b loc0 : Nat),
      alLookup c.basic_block_tracker.already_written b = some loc0 →
      set_target_to_basic_block c tr b =
        { c with java_method := set_target c.java_method tr loc0 } := by
    intro tr b loc0 hsome
    simp [set_target_to_basic_block, hsome]
  have hsecond2 : ∀ (tr : InstructionTarget) (b : Nat),
      alLookup c.basic_block_tracker.already_written b = none →
      (set_target_to_basic_block c tr b).java_method = c.java_method ∧
      alLookup (set_target_to_basic_block c tr b).basic_block_tracker.to_write b =
        some ((alLookup c.basic_block_tracker.to_write b).getD [] ++ [tr]) := by
    intro tr b hnone
    constructor
    · simp [set_target_to_basic_block, hnone]
    · simp only [set_target_to_basic_block, hnone]
      exact alLookup_alInsert_self _ _ _
  cases hlk : alLookup c.basic_block_tracker.to_write block with
  | none =>
    refine ⟨?_, ?_, ?_, ?_, ?_, ?_, hsecond1, hsecond2⟩
    · simp only [record_start_of_basic_block, hlk]
      exact alLookup_alInsert_self _ _ _
    · simp only [record_start_of_basic_block, hlk]
      exact alLookup_alErase_self _ _ hk
    · intro t ht
      simp at ht
    · simp only [record_start_of_basic_block, hlk, record_stackframe,
                 get_current_stackframe]
      exact smtLookup_smtInsert_self _ _ _
    · simp [record_start_of_basic_block, hlk, record_stackframe]
    · simp [record_start_of_basic_block, hlk, record_stackframe]
  | some pend =>
    rw [hlk] at hb hd
    simp only [Option.getD_some] at hb hd
    have hf := foldl_set_target_spec (current_location c.java_method) pend
      c.java_method hb hd
    refine ⟨?_, ?_, ?_, ?_, ?_, ?_, hsecond1, hsecond2⟩
    · simp only [record_start_of_basic_block, hlk]
      exact alLookup_alInsert_self _ _ _
    · simp only [record_start_of_basic_block, hlk]
      exact alLookup_alErase_self _ _ hk
    · intro t ht
      simp only [Option.getD_some] at ht
      have := hf.2.2.2.2.2.2 t ht
      simpa [record_start_of_basic_block, hlk, record_stackframe] using this
    · simp only [record_start_of_basic_block, hlk, record_stackframe,
                 get_current_stackframe]
      rw [smtLookup_smtInsert_self]
      rw [hf.2.2.1]
    · simpa [record_start_of_basic_block, hlk, record_stackframe] using hf.2.1
    · simpa [record_start_of_basic_block, hlk, record_stackframe] using hf.1

/-- A concrete context for the C6 witness: two emitted goto placeholders
(operand offsets 1 and 4) queued for block 5, cursor at 6, and block 7
already written at location 2. -/
def c6Ctx : FunctionTranslationContext :=
  { java_method := { MethodWriterState.fresh with
      code := ⟨[0xA7, 0xFE, 0xFE, 0xA7, 0xFE, 0xFE], 6⟩ },
    params := [], ssa_values := [], next_slot := 0,
    memory_allocation_info := ⟨none, false⟩,
    basic_block_tracker := ⟨[(7, 2)], [(5, [⟨0, 1⟩, ⟨3, 4⟩])]⟩ }

/-- Witness for C6: starting block 5 at location 6 patches both queued
branch operands (displacements 6 and 3) and clears the queue. -/
theorem record_start_of_basic_block_spec_witness :
    (c6Ctx.basic_block_tracker.to_write.map Prod.fst).Nodup ∧
    (∀ t ∈ (alLookup c6Ctx.basic_block_tracker.to_write 5).getD [],
        t.jump_location + 2 ≤ c6Ctx.java_method.code.data.length) ∧
    ((alLookup c6Ctx.basic_block_tracker.to_write 5).getD []).Pairwise tgtDisjoint ∧
    alLookup (record_start_of_basic_block c6Ctx 5).basic_block_tracker.already_written 5 =
      some 6 ∧
    alLookup (record_start_of_basic_block c6Ctx 5).basic_block_tracker.to_write 5 =
      none ∧
    (record_start_of_basic_block c6Ctx 5).java_method.code.data[1]? = some 0 ∧
    (record_start_of_basic_block c6Ctx 5).java_method.code.data[2]? = some 6 := by
  have hpw : ((alLookup c6Ctx.basic_block_tracker.to_write 5).getD []).Pairwise
      tgtDisjoint := by
    simp [c6Ctx, alLookup, List.pairwise_cons, tgtDisjoint]
  refine ⟨by decide, by decide, hpw, ?_, ?_, ?_, ?_⟩
  · exact (record_start_of_basic_block_spec c6Ctx 5 (by decide) (by decide) hpw).1
  · exact (record_start_of_basic_block_spec c6Ctx 5 (by decide) (by decide) hpw).2.1
  · exact ((record_start_of_basic_block_spec c6Ctx 5 (by decide) (by decide) hpw).2.2.1
      ⟨0, 1⟩ (by decide)).1
  · exact ((record_start_of_basic_block_spec c6Ctx 5 (by decide) (by decide) hpw).2.2.1
      ⟨0, 1⟩ (by decide)).2
